import Mathlib

/-!
Verification development for the q-property repository's lease
escalation-schedule builders.

The repository contains two source variants of the schedule computation:

* `buildSchedule` in `src/pages/leases.tsx` (lines 167-206): works in
  dollars (`monthlyRent`), takes a per-year list `increases`, defaults the
  term to five years when no (later) end date is present, emits one row per
  year with the period label clamped to the lease end date, and stops as
  soon as a period end reaches the end date.  The running rent is kept at
  full precision; rounding to cents happens only on the emitted row
  (`Math.round(rent * 100) / 100`).

* the `schedule` memo of `LeaseDetailsModal` in `src/unnamed/part_005`
  (lines 590-606) with its helpers `yearsBetween` (lines 103-114) and
  `inc` (lines 120-121): works in integer cents (`monthlyRentCents`),
  takes a single annual rule plus an optional option-year rule, and rounds
  to whole cents after each percent escalation step (`Math.round`).

Dates are embedded as (year, month, day) triples with JavaScript `Date`
conventions: `month` is 0-based (0 = January), comparison of `Date`
objects is timestamp order, which for dates parsed from `YYYY-MM-DD`
strings coincides with lexicographic order on (year, month, day).
`setFullYear` normalizes an out-of-range day into the following month
(relevant only for Feb 29 in a non-leap target year) and
`setDate(getDate() - 1)` steps one day back.  JavaScript numbers are
embedded as rationals; `Math.round` is `⌊x + 1/2⌋` (round half up).
-/

namespace QProperty

/-- JavaScript `Math.round`: round half toward positive infinity. -/
def jsRound (q : ℚ) : ℤ := ⌊q + 1 / 2⌋

/-- Gregorian leap year, as used by the JavaScript `Date` object. -/
def isLeap (y : ℤ) : Bool := (y % 4 == 0 && y % 100 != 0) || y % 400 == 0

/-- Number of days of month `m` (0-based, JS `getMonth` convention) in year `y`. -/
def daysInMonth (y m : ℤ) : ℤ :=
  if m = 1 then (if isLeap y then 29 else 28)
  else if m = 3 ∨ m = 5 ∨ m = 8 ∨ m = 10 then 30
  else 31

/-- Calendar date with JavaScript field conventions (`month` 0-based). -/
structure Date where
  year : ℤ
  month : ℤ
  day : ℤ
deriving DecidableEq, Repr

/-- A date whose fields are in range (what a successful `new Date(iso)` yields). -/
def Date.Valid (d : Date) : Prop :=
  0 ≤ d.month ∧ d.month ≤ 11 ∧ 1 ≤ d.day ∧ d.day ≤ daysInMonth d.year d.month

instance (d : Date) : Decidable d.Valid := by
  unfold Date.Valid; infer_instance

/-- Timestamp order on parsed dates: lexicographic on (year, month, day). -/
def dlt (a b : Date) : Prop :=
  a.year < b.year ∨ (a.year = b.year ∧
    (a.month < b.month ∨ (a.month = b.month ∧ a.day < b.day)))

instance (a b : Date) : Decidable (dlt a b) := by
  unfold dlt; infer_instance

/-- JS `a <= b` on dates: negation of `b < a`. -/
def dle (a b : Date) : Prop := ¬ dlt b a

instance (a b : Date) : Decidable (dle a b) := by
  unfold dle; infer_instance

/-- JS `d.setFullYear(y)`: replace the year, carrying a day that exceeds the
new month length into the following month (Feb 29 → Mar 1 in non-leap years). -/
def setYearJS (d : Date) (y : ℤ) : Date :=
  if d.day ≤ daysInMonth y d.month then ⟨y, d.month, d.day⟩
  else ⟨y, d.month + 1, d.day - daysInMonth y d.month⟩

/-- JS `d.setDate(d.getDate() - 1)` on a valid date: the previous day. -/
def prevDay (d : Date) : Date :=
  if 1 < d.day then ⟨d.year, d.month, d.day - 1⟩
  else if 0 < d.month then ⟨d.year, d.month - 1, daysInMonth d.year (d.month - 1)⟩
  else ⟨d.year - 1, 11, 31⟩

/-- Escalation mode (`"flat" | "percent"` in the source). -/
inductive IncMode where
  | flat : IncMode
  | percent : IncMode
deriving DecidableEq, Repr

/-! ### Variant of `src/unnamed/part_005`

Helpers `yearsBetween`, `addYear`, `inc` (part_005 lines 103-121) and the
`schedule` memo of `LeaseDetailsModal` (lines 590-606).  Rents are integer
cents in this variant; `annualValue` / `optionIncreaseValue` are cents when
the mode is `flat` and a percentage when it is `percent`. -/

/-- Escalation step, part_005 lines 120-121:
`mode === "flat" ? base + value : Math.round(base * (1 + value / 100))`. -/
def inc (base : ℚ) (mode : IncMode) (value : ℚ) : ℚ :=
  match mode with
  | .flat => base + value
  | .percent => (jsRound (base * (1 + value / 100)) : ℚ)

/-- Part_005 lines 103-114.  A `none` argument stands for a missing or
unparseable ISO string (the source returns 1 for an empty string and for a
`NaN` parse alike, and also when the end is on or before the start). -/
def yearsBetween (s? e? : Option Date) : ℕ :=
  match s? with
  | none => 1
  | some s =>
    match e? with
    | none => 1
    | some e =>
      if dle e s then 1
      else ((e.year - s.year) +
        (if e.month > s.month ∨ (e.month = s.month ∧ e.day ≥ s.day) then 1 else 0)).toNat

/-- Lease record of part_005 (lines 34-61), restricted to the fields the
page reads; rent and flat values are integer cents produced by
`moneyToCents`, but the embedding keeps the full `number` type (ℚ). -/
structure LeaseB where
  id : String
  tenantId : String
  propertyId : String
  monthlyRentCents : ℚ
  dueDay : ℤ
  startDate : Option Date
  endDate : Option Date
  securityDepositCents : ℚ
  graceDays : ℤ
  annualMode : IncMode
  annualValue : ℚ
  withOptions : Bool
  optionYears : Option ℤ
  optionIncreaseMode : Option IncMode
  optionIncreaseValue : Option ℚ
  locked : Bool
deriving DecidableEq

/-- Row of the part_005 schedule preview: `{ year, monthly }` (monthly in cents). -/
structure RowB where
  year : ℕ
  monthly : ℚ
deriving DecidableEq, Repr

/-- One of the two `for` loops of the part_005 `schedule` memo: emit `n`
rows starting at index `y` from running rent `m`, escalating `m` by
`inc _ mode v` after each emitted row; also returns the final running rent
(the loop body is `items.push({year: y, monthly: m}); m = inc(m, mode, v)`). -/
def emitRun (mode : IncMode) (v : ℚ) : ℕ → ℕ → ℚ → List RowB × ℚ
  | 0, _, m => ([], m)
  | n + 1, y, m =>
    let rest := emitRun mode v n (y + 1) (inc m mode v)
    (⟨y, m⟩ :: rest.1, rest.2)

/-- The `schedule` memo of `LeaseDetailsModal`, part_005 lines 590-606:
base-term rows for `yearsBetween(startDate, endDate)` years, then, when
`withOptions && (optionYears || 0) > 0`, one row per option year, the
running rent carried across the boundary.  `||`-defaults of the source map
to `Option.getD`. -/
def scheduleB (l : LeaseB) : List RowB :=
  let baseYears := yearsBetween l.startDate l.endDate
  let base := emitRun l.annualMode l.annualValue baseYears 1 l.monthlyRentCents
  let oy := l.optionYears.getD 0
  if l.withOptions = true ∧ 0 < oy then
    base.1 ++ (emitRun (l.optionIncreaseMode.getD .percent) (l.optionIncreaseValue.getD 0)
      oy.toNat (baseYears + 1) base.2).1
  else base.1

/-! ### Variant of `src/pages/leases.tsx`

`buildSchedule` (lines 167-206) over the `Lease` shape of `src/lib/types.ts`
extended with the `increases`/`locked`/timestamps fields the page adds. -/

/-- One entry of `lease.increases` (leases.tsx lines 154-157, 378-380). -/
structure Increase where
  year : ℤ
  mode : IncMode
  value : ℚ
deriving DecidableEq

/-- Lease record as used by `buildSchedule` in leases.tsx (fields from
`src/lib/types.ts` plus the page's `increases`, `locked`, timestamps). -/
structure LeaseA where
  id : String
  tenantId : String
  propertyId : String
  monthlyRent : ℚ
  dueDay : ℤ
  securityDeposit : ℚ
  startDate : Date
  endDate : Option Date
  graceDays : ℤ
  lateFeeFlatMode : Bool
  lateFeeValue : ℚ
  status : String
  notes : String
  locked : Bool
  increases : List Increase
  createdAt : ℤ
  updatedAt : ℤ
deriving DecidableEq

/-- Schedule row of leases.tsx: the source stores
`{ period: label, yearIndex, rent }` where `label` renders `periodStart`
and the end-clamped period end; the embedding keeps the two dates the label
displays instead of the locale-formatted string. -/
structure RowA where
  periodStart : Date
  periodEnd : Date
  yearIndex : ℤ
  rent : ℚ
deriving DecidableEq

/-- Lookup in `increasesByYear` (leases.tsx lines 174-175): the source fills a
`Map` by iterating the list, so a later entry for the same year wins. -/
def lookupInc (incs : List Increase) (y : ℤ) : Option Increase :=
  (incs.filter (fun i => i.year = y)).getLast?

/-- Rent update at the top of iteration `y` (leases.tsx lines 182-186):
`if (y > 1 && increasesByYear.has(y)) { ... }`. -/
def rentStep (incs : List Increase) (y : ℤ) (rent : ℚ) : ℚ :=
  if 1 < y then
    match lookupInc incs y with
    | some i =>
      match i.mode with
      | .flat => rent + i.value
      | .percent => rent * (1 + i.value / 100)
    | none => rent
  else rent

/-- The `periodStart` of year `y` (leases.tsx lines 188-189): the start date
with its year shifted by `y - 1`. -/
def periodStartAt (start : Date) (y : ℤ) : Date :=
  setYearJS start (start.year + (y - 1))

/-- The (unclamped) `periodEnd` of year `y` (leases.tsx lines 191-193):
`periodStart` plus one year, minus one day. -/
def periodEndAt (start : Date) (y : ℤ) : Date :=
  prevDay (setYearJS (periodStartAt start y) ((periodStartAt start y).year + 1))

/-- The period end the row's label displays (leases.tsx lines 196-199):
clamped to the lease end when `periodEnd > end`. -/
def shownEndAt (start : Date) (end? : Option Date) (y : ℤ) : Date :=
  match end? with
  | some e => if dlt e (periodEndAt start y) then e else periodEndAt start y
  | none => periodEndAt start y

/-- Loop body of `buildSchedule` (leases.tsx lines 181-203), with explicit
fuel `n` (the remaining iterations of `y ≤ totalYears`), current year `y`
and running rent `rent`; `break` when the period end reaches the end date. -/
def buildLoop (incs : List Increase) (start : Date) (end? : Option Date) :
    ℕ → ℤ → ℚ → List RowA
  | 0, _, _ => []
  | n + 1, y, rent =>
    let rent2 := rentStep incs y rent
    let row : RowA :=
      ⟨periodStartAt start y, shownEndAt start end? y, y, (jsRound (rent2 * 100) : ℚ) / 100⟩
    row ::
      (match end? with
       | some e =>
         if dle e (periodEndAt start y) then []
         else buildLoop incs start end? n (y + 1) rent2
       | none => buildLoop incs start end? n (y + 1) rent2)

/-- The `totalYears` bound of `buildSchedule` (leases.tsx lines 178-179):
`end && end > start ? Math.max(1, end.getFullYear() - start.getFullYear() + 1) : 5`. -/
def totalYears (start : Date) (end? : Option Date) : ℕ :=
  match end? with
  | some e => if dlt start e then (max 1 (e.year - start.year + 1)).toNat else 5
  | none => 5

/-- Function `buildSchedule` (leases.tsx lines 167-206). -/
def buildSchedule (l : LeaseA) : List RowA :=
  buildLoop l.increases l.startDate l.endDate
    (totalYears l.startDate l.endDate) 1 l.monthlyRent

/-- Rent after `k` escalation steps of rule `(mode, v)`. -/
def incIter (mode : IncMode) (v : ℚ) : ℕ → ℚ → ℚ
  | 0, m => m
  | k + 1, m => inc (incIter mode v k m) mode v

/-- Modelled from the spec: "whole months between" two dates, the reading
of `months_between(start, end)` under which the claim's count is "derived
from whole months between the dates": complete calendar months from `s` to
`e`. -/
def specWholeMonths (s e : Date) : ℤ :=
  12 * (e.year - s.year) + (e.month - s.month) - (if e.day < s.day then 1 else 0)

/-- Modelled from the spec: the claimed base-year count
`max(1, ceil(months_between(start, end) / 12))`. -/
def specCeilYears (s e : Date) : ℤ :=
  max 1 ⌈(specWholeMonths s e : ℚ) / 12⌉

/-- A rent that is a whole number of cents (every rent the application
stores is produced by `moneyToCents`, hence of this form). -/
def CentsExact (q : ℚ) : Prop := ∃ c : ℤ, q = (c : ℚ) / 100

/-- A rent in cents that is a non-negative integer (the invariant
`moneyToCents` guarantees: `Math.round` of a non-negative number). -/
def IntCentsNN (q : ℚ) : Prop := ∃ c : ℤ, 0 ≤ c ∧ q = (c : ℚ)

/-- An escalation rule with a non-negative value, the value being a whole
number of cents when the mode is `flat` (as `moneyToCents` produces). -/
def RuleNN (mode : IncMode) (v : ℚ) : Prop :=
  0 ≤ v ∧ (mode = .flat → ∃ c : ℤ, v = (c : ℚ))

/-! ### Concrete instances used by counterexamples and witnesses -/

/-- A leases.tsx lease with no end date and no increases. -/
def laNoEnd : LeaseA :=
  ⟨"L-1", "t1", "mock-p1", 2000, 1, 0, ⟨2024, 0, 1⟩, none, 0, true, 0,
    "active", "", false, [], 0, 0⟩

/-- A leases.tsx lease running 2024-01-01 to 2024-06-30 (spec clamping example). -/
def laMidYear : LeaseA :=
  ⟨"L-2", "t1", "mock-p1", 2000, 1, 0, ⟨2024, 0, 1⟩, some ⟨2024, 5, 30⟩, 0, true, 0,
    "active", "", false, [], 0, 0⟩

/-- A leases.tsx lease ending exactly on the first anniversary (2025-01-01). -/
def laAnniv : LeaseA :=
  ⟨"L-3", "t1", "mock-p1", 2000, 1, 0, ⟨2024, 0, 1⟩, some ⟨2025, 0, 1⟩, 0, true, 0,
    "active", "", false, [], 0, 0⟩

/-- A leases.tsx lease with a negative monthly rent (invalid input). -/
def laNegRent : LeaseA :=
  ⟨"L-4", "t1", "mock-p1", -100, 1, 0, ⟨2024, 0, 1⟩, none, 0, true, 0,
    "active", "", false, [], 0, 0⟩

/-- A leases.tsx lease running Feb 29 2024 to Feb 29 2028 (both leap
days): the start's year-shifted copies normalize to Mar 1, so the leap-day
anniversary is lost. -/
def laFeb29 : LeaseA :=
  ⟨"L-5", "t1", "mock-p1", 2000, 1, 0, ⟨2024, 1, 29⟩, some ⟨2028, 1, 29⟩, 0, true, 0,
    "active", "", false, [], 0, 0⟩

/-- A part_005 lease: 150 cents rent, 1 percent annual increase, three base
years (2024-01-01 to 2026-12-31), no options. -/
def lbPercent : LeaseB :=
  ⟨"lease_1", "t1", "mock1", 150, 1, some ⟨2024, 0, 1⟩, some ⟨2026, 11, 31⟩, 0, 0,
    .percent, 1, false, none, none, none, true⟩

/-- A part_005 lease ending exactly on the first anniversary (2025-01-01). -/
def lbAnniv : LeaseB :=
  ⟨"lease_2", "t1", "mock1", 100000, 1, some ⟨2024, 0, 1⟩, some ⟨2025, 0, 1⟩, 0, 0,
    .percent, 3, false, none, none, none, true⟩

/-- A part_005 lease with one base year, 10 percent annual rule, two option
years under a 0 percent option rule. -/
def lbOptions : LeaseB :=
  ⟨"lease_3", "t4", "mock1", 100000, 1, some ⟨2024, 0, 1⟩, none, 0, 0,
    .percent, 10, true, some 2, some .percent, some 0, true⟩

/-- A part_005 lease with a flat annual rule of 5000 cents over three base
years, no options. -/
def lbFlat : LeaseB :=
  ⟨"lease_4", "t2", "mock2", 100000, 1, some ⟨2024, 0, 1⟩, some ⟨2026, 11, 31⟩, 0, 0,
    .flat, 5000, false, none, none, none, true⟩

/-- A part_005 lease with no end date and no option years. -/
def lbNoEnd : LeaseB :=
  ⟨"lease_5", "t3", "mock3", 250000, 1, some ⟨2024, 7, 10⟩, none, 0, 0,
    .percent, 3, false, none, none, none, true⟩

/-! ### Helper lemmas about the part_005 schedule -/

lemma incIter_succ_left (mode : IncMode) (v : ℚ) (k : ℕ) (m : ℚ) :
    incIter mode v (k + 1) m = incIter mode v k (inc m mode v) := by
  induction k with
  | zero => rfl
  | succ k ih => rw [incIter, ih, incIter]

lemma incIter_flat (v : ℚ) (k : ℕ) (m : ℚ) :
    incIter .flat v k m = m + k * v := by
  induction k with
  | zero => simp [incIter]
  | succ k ih => rw [incIter, ih, inc]; push_cast; ring

lemma emitRun_fst_length (mode : IncMode) (v : ℚ) (n y : ℕ) (m : ℚ) :
    (emitRun mode v n y m).1.length = n := by
  induction n generalizing y m with
  | zero => rfl
  | succ n ih => simp [emitRun, ih]

lemma emitRun_fst_getElem? (mode : IncMode) (v : ℚ) (n y : ℕ) (m : ℚ)
    (i : ℕ) (hi : i < n) :
    (emitRun mode v n y m).1[i]? = some ⟨y + i, incIter mode v i m⟩ := by
  induction n generalizing y m i with
  | zero => omega
  | succ n ih =>
    match i with
    | 0 => simp [emitRun, incIter]
    | i + 1 =>
      have hi' : i < n := by omega
      simp only [emitRun, List.getElem?_cons_succ]
      rw [ih (y + 1) (inc m mode v) i hi', incIter_succ_left]
      congr 2
      omega

lemma emitRun_snd (mode : IncMode) (v : ℚ) (n y : ℕ) (m : ℚ) :
    (emitRun mode v n y m).2 = incIter mode v n m := by
  induction n generalizing y m with
  | zero => rfl
  | succ n ih => rw [emitRun, ih, incIter_succ_left]

lemma yearsBetween_pos (s? e? : Option Date) : 1 ≤ yearsBetween s? e? := by
  rcases s? with _ | s
  · simp [yearsBetween]
  rcases e? with _ | e
  · simp [yearsBetween]
  simp only [yearsBetween]
  split
  · omega
  rename_i hle
  have hlt : dlt s e := not_not.mp hle
  unfold dlt at hlt
  split <;> omega

lemma scheduleB_length (l : LeaseB) :
    (scheduleB l).length = yearsBetween l.startDate l.endDate +
      (if l.withOptions = true ∧ 0 < l.optionYears.getD 0
        then (l.optionYears.getD 0).toNat else 0) := by
  by_cases h : l.withOptions = true ∧ 0 < l.optionYears.getD 0 <;>
    simp [scheduleB, h, emitRun_fst_length]

/-- Rows with index below the base-year count come from the base loop. -/
lemma scheduleB_getElem?_base (l : LeaseB) (k : ℕ)
    (hk : k < yearsBetween l.startDate l.endDate) :
    (scheduleB l)[k]? =
      some ⟨1 + k, incIter l.annualMode l.annualValue k l.monthlyRentCents⟩ := by
  by_cases h : l.withOptions = true ∧ 0 < l.optionYears.getD 0
  · simp only [scheduleB]
    rw [if_pos h, List.getElem?_append_left (by rw [emitRun_fst_length]; exact hk)]
    exact emitRun_fst_getElem? _ _ _ _ _ _ hk
  · simp only [scheduleB]
    rw [if_neg h]
    exact emitRun_fst_getElem? _ _ _ _ _ _ hk

/-- Rows past the base-year count come from the option loop, whose running
rent starts at the value the base loop carried out (the last base rent
escalated once more by the annual rule). -/
lemma scheduleB_getElem?_option (l : LeaseB) (oy : ℤ)
    (hw : l.withOptions = true) (ho : l.optionYears = some oy) (hoy : 0 < oy)
    (i : ℕ) (hi : i < oy.toNat) :
    (scheduleB l)[yearsBetween l.startDate l.endDate + i]? =
      some ⟨yearsBetween l.startDate l.endDate + 1 + i,
        incIter (l.optionIncreaseMode.getD .percent) (l.optionIncreaseValue.getD 0) i
          (incIter l.annualMode l.annualValue (yearsBetween l.startDate l.endDate)
            l.monthlyRentCents)⟩ := by
  have hcond : l.withOptions = true ∧ 0 < l.optionYears.getD 0 := by
    constructor
    · exact hw
    · rw [ho]; exact hoy
  simp only [scheduleB]
  rw [if_pos hcond,
    List.getElem?_append_right (by rw [emitRun_fst_length]; omega)]
  rw [emitRun_fst_length]
  have h1 : yearsBetween l.startDate l.endDate + i -
      yearsBetween l.startDate l.endDate = i := by omega
  rw [h1, ho]
  rw [emitRun_fst_getElem? _ _ _ _ _ i (by simpa using hi), emitRun_snd]

/-! ### Date arithmetic lemmas -/

lemma daysInMonth_bounds (y m : ℤ) :
    28 ≤ daysInMonth y m ∧ daysInMonth y m ≤ 31 := by
  unfold daysInMonth
  split
  · cases isLeap y <;> simp
  · split <;> omega

lemma daysInMonth_eleven (y : ℤ) : daysInMonth y 11 = 31 := by
  unfold daysInMonth
  norm_num

/-- Lexicographic totality of the date order. -/
lemma dlt_antisymm_eq (a b : Date) (h1 : ¬ dlt a b) (h2 : ¬ dlt b a) : a = b := by
  cases a
  cases b
  unfold dlt at h1 h2
  simp only [Date.mk.injEq]
  simp only [not_or, not_and, not_lt] at h1 h2
  omega

/-- Setting the year keeps the fields coarsely in range: the year becomes the
target, the month stays in `0..11` and the day in `1..31`. -/
lemma setYearJS_coarse (d : Date) (y : ℤ)
    (hm : 0 ≤ d.month ∧ d.month ≤ 11) (hd : 1 ≤ d.day ∧ d.day ≤ 31) :
    (setYearJS d y).year = y ∧
      (0 ≤ (setYearJS d y).month ∧ (setYearJS d y).month ≤ 11) ∧
      (1 ≤ (setYearJS d y).day ∧ (setYearJS d y).day ≤ 31) := by
  unfold setYearJS
  split
  · simp
    omega
  · rename_i hcarry
    have hb := daysInMonth_bounds y d.month
    have h11 : d.month ≤ 10 := by
      by_contra hgt
      have : d.month = 11 := by omega
      rw [this, daysInMonth_eleven] at hcarry
      omega
    simp
    omega

/-- A valid date is unchanged by `setFullYear` to its own year. -/
lemma setYearJS_self (d : Date) (hv : d.Valid) : setYearJS d d.year = d := by
  obtain ⟨h1, h2, h3, h4⟩ := hv
  unfold setYearJS
  rw [if_pos h4]

/-- The previous day of a date with year `Y` (month in range, day ≥ 1) is
at or after the last day of year `Y - 1`. -/
lemma prevDay_lower (x : Date) (e : Date) (he : e.Valid) (hy : e.year < x.year) :
    dle e (prevDay x) := by
  obtain ⟨hem1, hem2, hed1, hed2⟩ := he
  have heb := daysInMonth_bounds e.year e.month
  unfold prevDay dle dlt
  split
  · simp
    omega
  split
  · simp
    omega
  · simp
    omega

/-! ### Helper lemmas about the leases.tsx `buildSchedule` loop -/

lemma getLast?_cons_some {α : Type} (x : α) (xs : List α) (r : α)
    (h : xs.getLast? = some r) : (x :: xs).getLast? = some r := by
  cases xs with
  | nil => simp at h
  | cons b t => rw [List.getLast?_cons_cons]; exact h

lemma rentStep_nil (y : ℤ) (rent : ℚ) : rentStep [] y rent = rent := by
  unfold rentStep lookupInc
  simp

/-- With no end date and no increases, the loop emits one row per unit of
fuel, every row at the starting rent (rounded to cents for display). -/
lemma buildLoop_none_nil (start : Date) (n : ℕ) (y : ℤ) (rent : ℚ) :
    (buildLoop [] start none n y rent).length = n ∧
      ∀ r ∈ buildLoop [] start none n y rent,
        r.rent = (jsRound (rent * 100) : ℚ) / 100 := by
  induction n generalizing y with
  | zero => simp [buildLoop]
  | succ n ih =>
    simp only [buildLoop, rentStep_nil]
    refine ⟨by simp [(ih (y + 1)).1], ?_⟩
    intro r hr
    rw [List.mem_cons] at hr
    rcases hr with hr | hr
    · rw [hr]
    · exact (ih (y + 1)).2 r hr

/-- When the `break` condition is reached, the row emitted in that
iteration displays the lease end date as its period end. -/
lemma shownEndAt_of_stop (start e : Date) (y : ℤ)
    (hstop : dle e (periodEndAt start y)) :
    shownEndAt start (some e) y = e := by
  simp only [shownEndAt]
  by_cases hc : dlt e (periodEndAt start y)
  · rw [if_pos hc]
  · rw [if_neg hc]
    exact (dlt_antisymm_eq e (periodEndAt start y) hc hstop).symm

/-- If the loop is guaranteed to hit its `break` within the available
fuel, the last emitted row's displayed period end is the lease end date. -/
lemma buildLoop_getLast_clamped (incs : List Increase) (start e : Date) :
    ∀ n y rent, (∃ k : ℕ, k < n ∧ dle e (periodEndAt start (y + k))) →
      ∃ r, (buildLoop incs start (some e) n y rent).getLast? = some r ∧
        r.periodEnd = e := by
  intro n
  induction n with
  | zero =>
    intro y rent h
    obtain ⟨k, hk, _⟩ := h
    omega
  | succ n ih =>
    intro y rent h
    by_cases hstop : dle e (periodEndAt start y)
    · refine ⟨⟨periodStartAt start y, shownEndAt start (some e) y, y,
        (jsRound (rentStep incs y rent * 100) : ℚ) / 100⟩, ?_, ?_⟩
      · simp only [buildLoop]
        rw [if_pos hstop]
        rfl
      · exact shownEndAt_of_stop start e y hstop
    · obtain ⟨k, hkn, hk⟩ := h
      match k with
      | 0 => exact absurd (by simpa using hk) hstop
      | k' + 1 =>
        have hk2 : dle e (periodEndAt start ((y + 1) + k')) := by
          have harg : y + ((k' + 1 : ℕ) : ℤ) = (y + 1) + (k' : ℤ) := by
            push_cast
            ring
          rwa [harg] at hk
        obtain ⟨r, hlast, hpe⟩ := ih (y + 1) (rentStep incs y rent) ⟨k', by omega, hk2⟩
        refine ⟨r, ?_, hpe⟩
        simp only [buildLoop]
        rw [if_neg hstop]
        exact getLast?_cons_some _ _ _ hlast

/-- A coarse range for `periodStartAt` of a valid start date, plus its year. -/
lemma periodStartAt_coarse (start : Date) (hs : start.Valid) (y : ℤ) :
    (periodStartAt start y).year = start.year + (y - 1) ∧
      (0 ≤ (periodStartAt start y).month ∧ (periodStartAt start y).month ≤ 11) ∧
      (1 ≤ (periodStartAt start y).day ∧ (periodStartAt start y).day ≤ 31) := by
  obtain ⟨h1, h2, h3, h4⟩ := hs
  have hb := daysInMonth_bounds start.year start.month
  exact setYearJS_coarse start (start.year + (y - 1)) ⟨h1, h2⟩ ⟨h3, by omega⟩

/-- The unclamped period end of year `y` sits in year `start.year + y` or
at the very end (Dec 31) of year `start.year + y - 1`; hence any valid
date of an earlier year is at or before it. -/
lemma periodEndAt_stops (start : Date) (hs : start.Valid) (e : Date)
    (he : e.Valid) (y : ℤ) (hy : e.year ≤ start.year + y - 1) :
    dle e (periodEndAt start y) := by
  obtain ⟨hpsy, hpsm, hpsd⟩ := periodStartAt_coarse start hs y
  have hinner := setYearJS_coarse (periodStartAt start y)
    ((periodStartAt start y).year + 1) hpsm hpsd
  unfold periodEndAt
  exact prevDay_lower _ e he (by omega)

/-- Within `totalYears` units of fuel the loop always reaches its `break`
condition when an end date is present. -/
lemma stop_within (start e : Date) (hs : start.Valid) (he : e.Valid) :
    ∃ k : ℕ, k < totalYears start (some e) ∧
      dle e (periodEndAt start (1 + k)) := by
  simp only [totalYears]
  by_cases hlt : dlt start e
  · rw [if_pos hlt]
    have hyy : start.year ≤ e.year := by
      unfold dlt at hlt
      omega
    refine ⟨(e.year - start.year).toNat, by omega, ?_⟩
    apply periodEndAt_stops start hs e he
    omega
  · rw [if_neg hlt]
    refine ⟨0, by omega, ?_⟩
    apply periodEndAt_stops start hs e he
    unfold dlt at hlt
    omega

lemma daysInMonth_indep (y1 y2 m : ℤ) (hm : m ≠ 1) :
    daysInMonth y1 m = daysInMonth y2 m := by
  unfold daysInMonth
  rw [if_neg hm, if_neg hm]

lemma daysInMonth_feb_le (y : ℤ) : daysInMonth y 1 ≤ 29 := by
  unfold daysInMonth
  cases isLeap y <;> simp

/-- The day of a valid date that is not Feb 29 fits in its month in every
year, so `setFullYear` never carries on it. -/
lemma day_le_daysInMonth_all (s : Date) (hs : s.Valid)
    (hnf : ¬ (s.month = 1 ∧ s.day = 29)) (y : ℤ) :
    s.day ≤ daysInMonth y s.month := by
  obtain ⟨h1, h2, h3, h4⟩ := hs
  by_cases hm : s.month = 1
  · have h4' : s.day ≤ 29 := by
      have hf := daysInMonth_feb_le s.year
      rw [hm] at h4
      omega
    have hne : s.day ≠ 29 := fun hd => hnf ⟨hm, hd⟩
    have hb := daysInMonth_bounds y s.month
    omega
  · rw [daysInMonth_indep y s.year s.month hm]
    exact h4

/-- For a valid start that is not Feb 29, neither `setFullYear` step
carries, so the unclamped period end of year `y` has the closed form
`prevDay ⟨start.year + y, start.month, start.day⟩`. -/
lemma periodEndAt_noFeb (s : Date) (hs : s.Valid)
    (hnf : ¬ (s.month = 1 ∧ s.day = 29)) (y : ℤ) :
    periodEndAt s y = prevDay ⟨s.year + y, s.month, s.day⟩ := by
  have hd1 := day_le_daysInMonth_all s hs hnf (s.year + (y - 1))
  have hd2 := day_le_daysInMonth_all s hs hnf (s.year + (y - 1) + 1)
  have hps : periodStartAt s y = ⟨s.year + (y - 1), s.month, s.day⟩ := by
    unfold periodStartAt setYearJS
    rw [if_pos hd1]
  unfold periodEndAt
  rw [hps]
  unfold setYearJS
  dsimp only
  rw [if_pos hd2]
  have harg : s.year + (y - 1) + 1 = s.year + y := by ring
  rw [harg]

/-- On valid dates, `e ≤ prevDay x` is exactly `e < x`: the calendar has
no date strictly between `prevDay x` and `x`. -/
lemma dle_prevDay_iff (a x : Date) (ha : a.Valid) (hx : x.Valid) :
    dle a (prevDay x) ↔ dlt a x := by
  obtain ⟨ham1, ham2, had1, had2⟩ := ha
  obtain ⟨hxm1, hxm2, hxd1, hxd2⟩ := hx
  have hba := daysInMonth_bounds a.year a.month
  have hbx := daysInMonth_bounds x.year (x.month - 1)
  have hcond : a.year = x.year → a.month = x.month - 1 →
      daysInMonth x.year (x.month - 1) = daysInMonth a.year a.month := by
    intro h1 h2
    rw [h1, h2]
  unfold prevDay dle dlt
  split
  · dsimp only
    omega
  split
  · dsimp only
    omega
  · dsimp only
    omega

/-- Closed-form `break` test for non-Feb-29 starts: the loop stops in year
`y` iff the end date is before the raw `y`-th anniversary of the start. -/
lemma stop_iff_noFeb (s e : Date) (hs : s.Valid) (he : e.Valid)
    (hnf : ¬ (s.month = 1 ∧ s.day = 29)) (y : ℤ) :
    dle e (periodEndAt s y) ↔ dlt e ⟨s.year + y, s.month, s.day⟩ := by
  rw [periodEndAt_noFeb s hs hnf y]
  have hA : (⟨s.year + y, s.month, s.day⟩ : Date).Valid :=
    ⟨hs.1, hs.2.1, hs.2.2.1, day_le_daysInMonth_all s hs hnf (s.year + y)⟩
  exact dle_prevDay_iff e _ he hA

/-- The loop's length is one more than the first year index offset whose
unclamped period end reaches the end date. -/
lemma buildLoop_length_min (incs : List Increase) (start e : Date) :
    ∀ (n j : ℕ) (y : ℤ) (rent : ℚ), j < n →
      dle e (periodEndAt start (y + j)) →
      (∀ k : ℕ, k < j → ¬ dle e (periodEndAt start (y + k))) →
      (buildLoop incs start (some e) n y rent).length = j + 1 := by
  intro n
  induction n with
  | zero =>
    intro j y rent hj _ _
    omega
  | succ n ih =>
    intro j y rent hj hstop hmin
    match j with
    | 0 =>
      have h0 : dle e (periodEndAt start y) := by simpa using hstop
      simp only [buildLoop]
      rw [if_pos h0]
      rfl
    | j' + 1 =>
      have hns : ¬ dle e (periodEndAt start y) := by
        have h := hmin 0 (by omega)
        simpa using h
      simp only [buildLoop]
      rw [if_neg hns, List.length_cons]
      have harg : y + ((j' + 1 : ℕ) : ℤ) = (y + 1) + (j' : ℤ) := by
        push_cast
        ring
      rw [harg] at hstop
      have hmin' : ∀ k : ℕ, k < j' → ¬ dle e (periodEndAt start ((y + 1) + k)) := by
        intro k hk
        have h := hmin (k + 1) (by omega)
        have harg2 : y + ((k + 1 : ℕ) : ℤ) = (y + 1) + (k : ℤ) := by
          push_cast
          ring
        rwa [harg2] at h
      rw [ih j' (y + 1) (rentStep incs y rent) (by omega) hstop hmin']

/-- For valid dates whose start is not Feb 29, `buildSchedule` emits
exactly `yearsBetween` base rows when an end date is present: the break
fires first in exactly the year the anniversary count singles out. -/
lemma buildSchedule_length_eq_yearsBetween (l : LeaseA) (e : Date)
    (hend : l.endDate = some e) (hs : l.startDate.Valid) (he : e.Valid)
    (hnf : ¬ (l.startDate.month = 1 ∧ l.startDate.day = 29)) :
    (buildSchedule l).length = yearsBetween (some l.startDate) (some e) := by
  unfold buildSchedule
  rw [hend]
  by_cases hlt : dlt l.startDate e
  · have hyy : l.startDate.year ≤ e.year := by
      unfold dlt at hlt
      omega
    have htot : totalYears l.startDate (some e) = (e.year - l.startDate.year + 1).toNat := by
      simp only [totalYears]
      rw [if_pos hlt]
      have hmax : max 1 (e.year - l.startDate.year + 1) = e.year - l.startDate.year + 1 :=
        max_eq_right (by omega)
      rw [hmax]
    by_cases haft : e.month > l.startDate.month ∨
        (e.month = l.startDate.month ∧ e.day ≥ l.startDate.day)
    · have hyb : yearsBetween (some l.startDate) (some e) =
          (e.year - l.startDate.year + 1).toNat := by
        have hnd : ¬ dle e l.startDate := not_not_intro hlt
        simp only [yearsBetween]
        rw [if_neg hnd, if_pos haft]
      have hstop : dle e (periodEndAt l.startDate
          (1 + ((e.year - l.startDate.year).toNat : ℤ))) := by
        apply periodEndAt_stops l.startDate hs e he
        omega
      have hmin : ∀ k : ℕ, k < (e.year - l.startDate.year).toNat →
          ¬ dle e (periodEndAt l.startDate (1 + (k : ℤ))) := by
        intro k hk
        rw [stop_iff_noFeb l.startDate e hs he hnf (1 + k)]
        unfold dlt
        dsimp only
        omega
      have hlen := buildLoop_length_min l.increases l.startDate e
        (totalYears l.startDate (some e)) (e.year - l.startDate.year).toNat 1
        l.monthlyRent (by rw [htot]; omega) hstop hmin
      rw [hlen, hyb]
      omega
    · have hΔ1 : 1 ≤ e.year - l.startDate.year := by
        unfold dlt at hlt
        omega
      have hyb : yearsBetween (some l.startDate) (some e) =
          (e.year - l.startDate.year).toNat := by
        have hnd : ¬ dle e l.startDate := not_not_intro hlt
        simp only [yearsBetween]
        rw [if_neg hnd, if_neg haft]
        congr 1
        omega
      have hstop : dle e (periodEndAt l.startDate
          (1 + ((e.year - l.startDate.year - 1).toNat : ℤ))) := by
        rw [stop_iff_noFeb l.startDate e hs he hnf]
        unfold dlt
        dsimp only
        omega
      have hmin : ∀ k : ℕ, k < (e.year - l.startDate.year - 1).toNat →
          ¬ dle e (periodEndAt l.startDate (1 + (k : ℤ))) := by
        intro k hk
        rw [stop_iff_noFeb l.startDate e hs he hnf (1 + k)]
        unfold dlt
        dsimp only
        omega
      have hlen := buildLoop_length_min l.increases l.startDate e
        (totalYears l.startDate (some e)) (e.year - l.startDate.year - 1).toNat 1
        l.monthlyRent (by rw [htot]; omega) hstop hmin
      rw [hlen, hyb]
      omega
  · have hyb : yearsBetween (some l.startDate) (some e) = 1 := by
      have hds : dle e l.startDate := hlt
      simp only [yearsBetween]
      rw [if_pos hds]
    have htot5 : totalYears l.startDate (some e) = 5 := by
      simp only [totalYears]
      rw [if_neg hlt]
    have hstop : dle e (periodEndAt l.startDate (1 + ((0 : ℕ) : ℤ))) := by
      apply periodEndAt_stops l.startDate hs e he
      unfold dlt at hlt
      omega
    have hlen := buildLoop_length_min l.increases l.startDate e
      (totalYears l.startDate (some e)) 0 1 l.monthlyRent
      (by rw [htot5]; omega) hstop (fun k hk => absurd hk k.not_lt_zero)
    rw [hlen, hyb]

/-- The `yearsBetween` count in closed form over valid dates: one year
when the end is on or before the start, else one plus the number of whole
twelve-month blocks between the dates. -/
lemma yearsBetween_formula (s e : Date) (hs : s.Valid) (he : e.Valid) :
    yearsBetween (some s) (some e) =
      if dlt s e then 1 + (specWholeMonths s e).toNat / 12 else 1 := by
  by_cases hlt : dlt s e
  · rw [if_pos hlt]
    obtain ⟨hm1, hm2, hd1, hd2⟩ := hs
    obtain ⟨hm1', hm2', hd1', hd2'⟩ := he
    have hb := daysInMonth_bounds s.year s.month
    have hb' := daysInMonth_bounds e.year e.month
    have hnd : ¬ dle e s := not_not_intro hlt
    simp only [yearsBetween, specWholeMonths]
    rw [if_neg hnd]
    unfold dlt at hlt
    split_ifs <;> omega
  · rw [if_neg hlt]
    have hds : dle e s := hlt
    simp only [yearsBetween]
    rw [if_pos hds]

lemma jsRound_intCast (c : ℤ) : jsRound (c : ℚ) = c := by
  unfold jsRound
  rw [Int.floor_eq_iff]
  constructor <;> norm_num

lemma yearsBetween_none_right (s? : Option Date) : yearsBetween s? none = 1 := by
  rcases s? with _ | s <;> rfl

lemma totalYears_pos (s : Date) (e? : Option Date) : 1 ≤ totalYears s e? := by
  rcases e? with _ | e
  · simp [totalYears]
  · simp only [totalYears]
    split
    · have h1 : (1 : ℤ) ≤ max 1 (e.year - s.year + 1) := le_max_left _ _
      omega
    · omega

/-- A lease with no end date and no increases yields the five-row default
schedule, each row at the starting rent (exact when the rent is a whole
number of cents). -/
lemma buildSchedule_none_nil_rents (l : LeaseA) (hend : l.endDate = none)
    (hinc : l.increases = []) (c : ℤ) (hc : l.monthlyRent = (c : ℚ) / 100) :
    (buildSchedule l).length = 5 ∧
      ∀ r ∈ buildSchedule l, r.rent = l.monthlyRent := by
  unfold buildSchedule
  rw [hend, hinc]
  have htot : totalYears l.startDate none = 5 := rfl
  rw [htot]
  obtain ⟨h1, h2⟩ := buildLoop_none_nil l.startDate 5 1 l.monthlyRent
  refine ⟨h1, ?_⟩
  intro r hr
  rw [h2 r hr, hc]
  have hmul : ((c : ℚ) / 100) * 100 = (c : ℚ) := by field_simp
  rw [hmul, jsRound_intCast]

/-! ### Monotonicity of the part_005 escalation -/

/-- An escalation step with a non-negative rule never decreases an integer
non-negative rent, and keeps it an integer. -/
lemma inc_mono (m : ℚ) (mode : IncMode) (v : ℚ)
    (hm : IntCentsNN m) (hv : RuleNN mode v) :
    m ≤ inc m mode v ∧ IntCentsNN (inc m mode v) := by
  obtain ⟨c, hc0, hc⟩ := hm
  obtain ⟨hv0, hvflat⟩ := hv
  cases mode with
  | flat =>
    obtain ⟨w, hw⟩ := hvflat rfl
    have hw0 : 0 ≤ w := by
      rw [hw] at hv0
      exact_mod_cast hv0
    subst hc
    subst hw
    constructor
    · simp only [inc]
      have : (0 : ℚ) ≤ (w : ℚ) := by exact_mod_cast hw0
      linarith
    · exact ⟨c + w, by omega, by simp only [inc]; push_cast; ring⟩
  | percent =>
    subst hc
    have hgrow : (c : ℚ) ≤ (c : ℚ) * (1 + v / 100) := by
      have hc0' : (0 : ℚ) ≤ (c : ℚ) := by exact_mod_cast hc0
      nlinarith
    have hfl : c ≤ jsRound ((c : ℚ) * (1 + v / 100)) := by
      unfold jsRound
      rw [Int.le_floor]
      linarith
    constructor
    · simp only [inc]
      exact_mod_cast hfl
    · exact ⟨jsRound ((c : ℚ) * (1 + v / 100)), by omega, rfl⟩

/-- The first row an `emitRun` emits carries the incoming running rent. -/
lemma emitRun_head_rent (mode : IncMode) (v : ℚ) (n y : ℕ) (m : ℚ) :
    ∀ b ∈ (emitRun mode v n y m).1.head?, b.monthly = m := by
  cases n <;> simp [emitRun]

/-- Along an `emitRun` with a non-negative rule and an integer non-negative
starting rent, the emitted rents form a non-decreasing chain, every emitted
rent is at most the carried-out rent, and the carried-out rent is again an
integer at least the starting rent. -/
lemma emitRun_chain (mode : IncMode) (v : ℚ) (hv : RuleNN mode v) :
    ∀ n y m, IntCentsNN m →
      List.Chain' (fun a b : RowB => a.monthly ≤ b.monthly) (emitRun mode v n y m).1 ∧
      IntCentsNN (emitRun mode v n y m).2 ∧ m ≤ (emitRun mode v n y m).2 ∧
      ∀ x ∈ (emitRun mode v n y m).1.getLast?, x.monthly ≤ (emitRun mode v n y m).2 := by
  intro n
  induction n with
  | zero =>
    intro y m hm
    exact ⟨List.chain'_nil, hm, le_refl m, by simp [emitRun]⟩
  | succ n ih =>
    intro y m hm
    obtain ⟨hstep, hmm⟩ := inc_mono m mode v hm hv
    obtain ⟨hch, hint, hle, hlast⟩ := ih (y + 1) (inc m mode v) hmm
    refine ⟨?_, hint, le_trans hstep hle, ?_⟩
    · simp only [emitRun]
      rw [List.chain'_cons']
      refine ⟨?_, hch⟩
      intro b hb
      have := emitRun_head_rent mode v n (y + 1) (inc m mode v) b hb
      simp only [this]
      exact hstep
    · intro x hx
      simp only [emitRun] at hx ⊢
      cases hn : (emitRun mode v n (y + 1) (inc m mode v)).1 with
      | nil =>
        rw [hn] at hx
        simp only [List.getLast?_singleton, Option.mem_def, Option.some.injEq] at hx
        rw [← hx]
        exact le_trans hstep hle
      | cons b t =>
        rw [hn, List.getLast?_cons_cons] at hx
        have := hlast x (by rw [hn]; exact hx)
        exact this

/-- The whole part_005 schedule is a non-decreasing chain of rents when
both rules are non-negative and the rent is integer cents. -/
lemma scheduleB_chain (l : LeaseB) (hrent : IntCentsNN l.monthlyRentCents)
    (hann : RuleNN l.annualMode l.annualValue)
    (hopt : RuleNN (l.optionIncreaseMode.getD .percent) (l.optionIncreaseValue.getD 0)) :
    List.Chain' (fun a b : RowB => a.monthly ≤ b.monthly) (scheduleB l) := by
  by_cases h : l.withOptions = true ∧ 0 < l.optionYears.getD 0
  · simp only [scheduleB]
    rw [if_pos h]
    obtain ⟨hbch, hbint, _, hblast⟩ :=
      emitRun_chain l.annualMode l.annualValue hann
        (yearsBetween l.startDate l.endDate) 1 l.monthlyRentCents hrent
    obtain ⟨hoch, _, _, _⟩ :=
      emitRun_chain (l.optionIncreaseMode.getD .percent) (l.optionIncreaseValue.getD 0) hopt
        (l.optionYears.getD 0).toNat (yearsBetween l.startDate l.endDate + 1)
        (emitRun l.annualMode l.annualValue (yearsBetween l.startDate l.endDate) 1
          l.monthlyRentCents).2 hbint
    rw [List.chain'_append]
    refine ⟨hbch, hoch, ?_⟩
    intro x hx b hb
    have hxle := hblast x hx
    have hbm := emitRun_head_rent _ _ _ _ _ b hb
    rw [hbm]
    exact hxle
  · simp only [scheduleB]
    rw [if_neg h]
    exact (emitRun_chain l.annualMode l.annualValue hann
      (yearsBetween l.startDate l.endDate) 1 l.monthlyRentCents hrent).1

/-! ## Claim theorems -/

/-- Claim C1, counterexample: the lease `laNoEnd` has no end date, no
increases and no option years, yet `buildSchedule` returns five rows, not
one — with no (later) end date the source uses a five-year default
(leases.tsx line 179), not a one-year base term. -/
theorem C1_counterexample :
    (buildSchedule laNoEnd).length = 5 ∧ (buildSchedule laNoEnd).length ≠ 1 := by
  have h : (buildSchedule laNoEnd).length = 5 := rfl
  exact ⟨h, by rw [h]; omega⟩

/-- Claim C1, amended: with no end date, `buildSchedule` (leases.tsx)
returns exactly five rows — its five-year default — each row's rent equal
to `monthlyRent` when there are no configured increases (and the rent is a
whole number of cents); the part_005 schedule, by contrast, returns
exactly one row at `monthlyRentCents` for a lease with no end date and no
option years. -/
theorem C1_amended :
    (∀ l : LeaseA, l.endDate = none → l.increases = [] → CentsExact l.monthlyRent →
      (buildSchedule l).length = 5 ∧ ∀ r ∈ buildSchedule l, r.rent = l.monthlyRent) ∧
    (∀ l : LeaseB, l.endDate = none →
      ¬ (l.withOptions = true ∧ 0 < l.optionYears.getD 0) →
      scheduleB l = [⟨1, l.monthlyRentCents⟩]) := by
  constructor
  · intro l hend hinc hcents
    obtain ⟨c, hc⟩ := hcents
    exact buildSchedule_none_nil_rents l hend hinc c hc
  · intro l hend hopt
    simp only [scheduleB]
    rw [if_neg hopt]
    have hyb : yearsBetween l.startDate l.endDate = 1 := by
      rw [hend]
      exact yearsBetween_none_right _
    rw [hyb]
    simp [emitRun]

/-- Claim C1, witness: the amended statement evaluated at concrete leases. -/
theorem C1_witness :
    ((buildSchedule laNoEnd).length = 5 ∧
      ∀ r ∈ buildSchedule laNoEnd, r.rent = laNoEnd.monthlyRent) ∧
    scheduleB lbNoEnd = [⟨1, 250000⟩] := by
  refine ⟨C1_amended.1 laNoEnd rfl rfl ⟨200000, by norm_num [laNoEnd]⟩, ?_⟩
  exact C1_amended.2 lbNoEnd rfl (by simp [lbNoEnd])

/-- Claim C2, counterexample: with `monthlyRentCents = 150` and a
1-percent annual increase over three base years, the third row's rent is
154 cents (rounding to whole cents after each escalation step), while
rounding `150·(1+1/100)²` once yields 153 cents — so row `k` does not
equal `monthlyRent·(1+p/100)^(k-1)` rounded to cents. -/
theorem C2_counterexample :
    (scheduleB lbPercent)[2]? = some ⟨3, 154⟩ ∧
      jsRound ((150 : ℚ) * (1 + 1 / 100) ^ 2) = 153 ∧ (154 : ℚ) ≠ 153 := by
  refine ⟨?_, ?_, by norm_num⟩
  · norm_num [scheduleB, lbPercent, yearsBetween, dle, dlt, emitRun, inc, jsRound]
  · norm_num [jsRound]

/-- Claim C2, amended: in percent mode row `k` (0-based) of the part_005
schedule carries `incIter .percent p k monthlyRent`, i.e. the result of
`k` successive steps `r ↦ Math.round(r·(1+p/100))`, each step rounding to
whole cents; the per-step rounded value can differ from rounding
`monthlyRent·(1+p/100)^k` once (see the counterexample). -/
theorem C2_amended (l : LeaseB) (k : ℕ) (hmode : l.annualMode = .percent)
    (hk : k < yearsBetween l.startDate l.endDate) :
    (scheduleB l)[k]? =
      some ⟨1 + k, incIter .percent l.annualValue k l.monthlyRentCents⟩ ∧
    ∀ m : ℚ, inc m .percent l.annualValue =
      (jsRound (m * (1 + l.annualValue / 100)) : ℚ) := by
  refine ⟨?_, fun m => rfl⟩
  rw [scheduleB_getElem?_base l k hk, hmode]

/-- Claim C2, witness: the amended statement at `lbPercent`, row 2. -/
theorem C2_witness :
    (scheduleB lbPercent)[1]? =
      some ⟨2, incIter .percent lbPercent.annualValue 1 lbPercent.monthlyRentCents⟩ ∧
    incIter .percent 1 1 (150 : ℚ) = 152 := by
  refine ⟨(C2_amended lbPercent 1 rfl (by decide)).1, ?_⟩
  norm_num [incIter, inc, jsRound]

/-- Claim C3: with base years `n = yearsBetween(start, end)`, option years
`m > 0` and option rule `r = (om, ov)`, the part_005 schedule has exactly
`n + m` rows; the very first row of the schedule carries the unescalated
rent, the first option row carries the rent carried out of the base loop
(the last base rent escalated once by the *annual* rule), and each later
option row escalates its predecessor by `r` — i.e. escalation is applied
before emitting every row except the very first. -/
theorem C3_option_rows (l : LeaseB) (oy : ℤ) (om : IncMode) (ov : ℚ)
    (hw : l.withOptions = true) (ho : l.optionYears = some oy) (hoy : 0 < oy)
    (hom : l.optionIncreaseMode = some om) (hov : l.optionIncreaseValue = some ov) :
    (scheduleB l).length = yearsBetween l.startDate l.endDate + oy.toNat ∧
    (scheduleB l)[0]? = some ⟨1, l.monthlyRentCents⟩ ∧
    ∀ i : ℕ, i < oy.toNat →
      (scheduleB l)[yearsBetween l.startDate l.endDate + i]? =
        some ⟨yearsBetween l.startDate l.endDate + 1 + i,
          incIter om ov i
            (incIter l.annualMode l.annualValue (yearsBetween l.startDate l.endDate)
              l.monthlyRentCents)⟩ := by
  have hcond : l.withOptions = true ∧ 0 < l.optionYears.getD 0 :=
    ⟨hw, by rw [ho]; simpa using hoy⟩
  refine ⟨?_, ?_, ?_⟩
  · rw [scheduleB_length, if_pos hcond, ho]
    rfl
  · have h0 : 0 < yearsBetween l.startDate l.endDate :=
      yearsBetween_pos l.startDate l.endDate
    have h := scheduleB_getElem?_base l 0 h0
    simpa [incIter] using h
  · intro i hi
    have h := scheduleB_getElem?_option l oy hw ho hoy i hi
    rw [hom, hov] at h
    simpa using h

/-- Claim C3, witness: `lbOptions` (one base year at 100000 cents, 10
percent annual rule, two option years at 0 percent): three rows, the first
option row already carries the annual escalation. -/
theorem C3_witness :
    (scheduleB lbOptions).length = 3 ∧
    (scheduleB lbOptions)[0]? = some ⟨1, 100000⟩ ∧
    (scheduleB lbOptions)[1]? = some ⟨2, 110000⟩ ∧
    (scheduleB lbOptions)[2]? = some ⟨3, 110000⟩ := by
  obtain ⟨h1, h2, h3⟩ := C3_option_rows lbOptions 2 .percent 0 rfl rfl (by norm_num) rfl rfl
  have e1 := h3 0 (by norm_num)
  have e2 := h3 1 (by norm_num)
  norm_num [incIter, inc, jsRound, yearsBetween, lbOptions] at h1 e1 e2
  exact ⟨h1, by simpa [lbOptions] using h2, e1, e2⟩

/-- Claim C4, counterexample: for a lease running 2024-01-01 to 2025-01-01
(twelve whole months) the claimed count `max(1, ceil(months/12))` is 1,
but both `yearsBetween` and the emitted schedules produce 2 rows: the code
counts started lease-years (calendar-year difference plus an anniversary
test), treating the end date inclusively. -/
theorem C4_counterexample :
    yearsBetween (some ⟨2024, 0, 1⟩) (some ⟨2025, 0, 1⟩) = 2 ∧
    (buildSchedule laAnniv).length = 2 ∧
    (scheduleB lbAnniv).length = 2 ∧
    specCeilYears ⟨2024, 0, 1⟩ ⟨2025, 0, 1⟩ = 1 := by
  refine ⟨rfl, rfl, rfl, ?_⟩
  norm_num [specCeilYears, specWholeMonths]

/-- Claim C4, amended: over valid parseable dates the emitted base-term
row count is `1 + floor(whole_months(start, end) / 12)` when `start < end`
— equivalently the calendar-year difference plus one when the end's
(month, day) is on/after the start's — and `1` when `end ≤ start`; not
`max(1, ceil(whole_months / 12))`.  This holds for the part_005 schedule
on all valid dates, and for `buildSchedule` (leases.tsx) on all valid
dates whose start is not Feb 29: leases.tsx normalizes a year-shifted
Feb 29 start to Mar 1, which can drop the leap-day anniversary and emit
one row fewer than the formula (see the witness). -/
theorem C4_amended :
    (∀ (s e : Date) (l : LeaseB), s.Valid → e.Valid →
      l.startDate = some s → l.endDate = some e →
      ¬ (l.withOptions = true ∧ 0 < l.optionYears.getD 0) →
      (scheduleB l).length =
        if dlt s e then 1 + (specWholeMonths s e).toNat / 12 else 1) ∧
    (∀ (e : Date) (l : LeaseA), l.startDate.Valid → e.Valid →
      l.endDate = some e → ¬ (l.startDate.month = 1 ∧ l.startDate.day = 29) →
      (buildSchedule l).length =
        if dlt l.startDate e then 1 + (specWholeMonths l.startDate e).toNat / 12
        else 1) := by
  constructor
  · intro s e l hs he hstart hend hopt
    have hlen : (scheduleB l).length = yearsBetween l.startDate l.endDate := by
      simp [scheduleB_length, hopt]
    rw [hlen, hstart, hend, yearsBetween_formula s e hs he]
  · intro e l hs he hend hnf
    rw [buildSchedule_length_eq_yearsBetween l e hend hs he hnf,
      yearsBetween_formula l.startDate e hs he]

/-- Claim C4, witness: the amended count at concrete leases — three rows
for 2024-01-01→2026-12-31 (35 whole months) in part_005, two rows for the
exact anniversary 2024-01-01→2025-01-01 in leases.tsx, one row when the
end equals the start in either builder, plus the Feb-29 corner where the
two variants genuinely part ways (buildSchedule emits 4 rows while
`yearsBetween` counts 5). -/
theorem C4_witness :
    (scheduleB lbPercent).length = 3 ∧
    (buildSchedule laAnniv).length = 2 ∧
    (scheduleB { lbPercent with endDate := some ⟨2024, 0, 1⟩ }).length = 1 ∧
    (buildSchedule { laAnniv with endDate := some ⟨2024, 0, 1⟩ }).length = 1 ∧
    (buildSchedule laFeb29).length = 4 ∧
    yearsBetween (some ⟨2024, 1, 29⟩) (some ⟨2028, 1, 29⟩) = 5 := by
  refine ⟨?_, ?_, ?_, ?_, rfl, rfl⟩
  · have h := C4_amended.1 ⟨2024, 0, 1⟩ ⟨2026, 11, 31⟩ lbPercent (by decide) (by decide)
      rfl rfl (by decide)
    rw [h]
    decide
  · have h := C4_amended.2 ⟨2025, 0, 1⟩ laAnniv (by decide) (by decide) rfl (by decide)
    rw [h]
    decide
  · have h := C4_amended.1 ⟨2024, 0, 1⟩ ⟨2024, 0, 1⟩
      { lbPercent with endDate := some ⟨2024, 0, 1⟩ } (by decide) (by decide)
      rfl rfl (by decide)
    rw [h]
    decide
  · have h := C4_amended.2 ⟨2024, 0, 1⟩ { laAnniv with endDate := some ⟨2024, 0, 1⟩ }
      (by decide) (by decide) rfl (by decide)
    rw [h]
    decide

/-- Claim C5: whenever an end date is present (in particular whenever it
falls mid-year, before the one-year boundary), the last row `buildSchedule`
emits displays exactly the end date as its period end — the clamp of
leases.tsx lines 196-199 combined with the `break` of line 202. -/
theorem C5_clamped (l : LeaseA) (e : Date) (hend : l.endDate = some e)
    (hs : l.startDate.Valid) (he : e.Valid) :
    ∃ r, (buildSchedule l).getLast? = some r ∧ r.periodEnd = e := by
  unfold buildSchedule
  rw [hend]
  obtain ⟨k, hk, hstop⟩ := stop_within l.startDate e hs he
  exact buildLoop_getLast_clamped l.increases l.startDate e _ 1 l.monthlyRent ⟨k, hk, hstop⟩

/-- Claim C5, witness: start 2024-01-01, end 2024-06-30, no options: a
single row whose displayed period end is 2024-06-30 (month 5, 0-based),
not 2024-12-31. -/
theorem C5_witness :
    (∃ r, (buildSchedule laMidYear).getLast? = some r ∧ r.periodEnd = ⟨2024, 5, 30⟩) ∧
    (buildSchedule laMidYear).length = 1 ∧
    (⟨2024, 5, 30⟩ : Date) ≠ ⟨2024, 11, 31⟩ := by
  refine ⟨C5_clamped laMidYear ⟨2024, 5, 30⟩ rfl (by decide) (by decide), rfl, by decide⟩

/-- Claim C6: in flat mode, row `k` (0-based) of the part_005 schedule
carries exactly `monthlyRent + k·f`, with no rounding involved. -/
theorem C6_flat_rows (l : LeaseB) (k : ℕ) (hmode : l.annualMode = .flat)
    (hk : k < yearsBetween l.startDate l.endDate) :
    (scheduleB l)[k]? = some ⟨1 + k, l.monthlyRentCents + k * l.annualValue⟩ := by
  rw [scheduleB_getElem?_base l k hk, hmode, incIter_flat]

/-- Claim C6, witness: `lbFlat` (100000 cents, flat 5000, three base
years), row 2 carries `100000 + 2·5000 = 110000`. -/
theorem C6_witness :
    (scheduleB lbFlat)[2]? = some ⟨3, 110000⟩ := by
  have h := C6_flat_rows lbFlat 2 rfl (by decide)
  norm_num [lbFlat] at h
  exact h

/-- Claim C7, counterexample: `buildSchedule` does not fail on a negative
`monthlyRent`: at `monthlyRent = -100` it returns a complete five-row
schedule, every row at rent −100 — the source has no `InvalidInput`
failure path at all (the caller merely wraps the call in `try/catch`,
leases.tsx lines 407-411). -/
theorem C7_counterexample :
    (buildSchedule laNegRent).length = 5 ∧
      ∀ r ∈ buildSchedule laNegRent, r.rent = -100 := by
  exact buildSchedule_none_nil_rents laNegRent rfl rfl (-10000) (by norm_num [laNegRent])

/-- Claim C7, amended: `buildSchedule` is total: for every input — however
malformed — it returns a complete, non-empty schedule; it never throws,
and no `InvalidInput` failure exists in the builder (input validation is
left to callers). -/
theorem C7_amended (l : LeaseA) : 1 ≤ (buildSchedule l).length := by
  unfold buildSchedule
  have h := totalYears_pos l.startDate l.endDate
  obtain ⟨n, hn⟩ : ∃ n, totalYears l.startDate l.endDate = n + 1 :=
    ⟨totalYears l.startDate l.endDate - 1, by omega⟩
  rw [hn]
  simp only [buildLoop]
  simp

/-- Claim C8: `buildSchedule` is a pure function of the lease value: its
output depends only on the `monthlyRent`, `startDate`, `endDate` and
`increases` fields it reads, so two calls with equal lease values — in
particular, two calls with the same lease object — yield identical output,
with no hidden state and no dependency on storage. -/
theorem C8_pure (l1 l2 : LeaseA)
    (h1 : l1.monthlyRent = l2.monthlyRent) (h2 : l1.startDate = l2.startDate)
    (h3 : l1.endDate = l2.endDate) (h4 : l1.increases = l2.increases) :
    buildSchedule l1 = buildSchedule l2 := by
  unfold buildSchedule
  rw [h1, h2, h3, h4]

/-- Claim C8, witness: changing only fields the builder does not read
(id, notes, dueDay, locked, createdAt) leaves the schedule unchanged. -/
theorem C8_witness :
    buildSchedule laNoEnd =
      buildSchedule { laNoEnd with
        id := "L-99"
        notes := "edited"
        dueDay := 15
        locked := true
        createdAt := 42 } :=
  C8_pure _ _ rfl rfl rfl rfl

/-- Claim C9: a negative `optionYears` is treated as zero by the part_005
schedule: the guard `withOptions && (optionYears || 0) > 0` rejects it, so
the output equals that of the same lease with `optionYears = 0`, and only
the base-term rows are emitted. -/
theorem C9_negative_optionYears (l : LeaseB) (oy : ℤ) (hoy : oy < 0)
    (h : l.optionYears = some oy) :
    scheduleB l = scheduleB { l with optionYears := some 0 } ∧
      (scheduleB l).length = yearsBetween l.startDate l.endDate := by
  have hc1 : ¬ (l.withOptions = true ∧ 0 < l.optionYears.getD 0) := by
    rintro ⟨-, hb⟩
    rw [h] at hb
    simp only [Option.getD_some] at hb
    omega
  have hc2 : ¬ (({ l with optionYears := some 0 } : LeaseB).withOptions = true ∧
      0 < ({ l with optionYears := some 0 } : LeaseB).optionYears.getD 0) := by
    rintro ⟨-, hb⟩
    simp at hb
  constructor
  · simp only [scheduleB]
    rw [if_neg hc1, if_neg hc2]
  · simp [scheduleB_length, hc1]

/-- Claim C9, witness: `optionYears = -3` produces the same single base
row as `optionYears = 0`. -/
theorem C9_witness :
    scheduleB { lbOptions with optionYears := some (-3) } =
      scheduleB { lbOptions with optionYears := some 0 } ∧
    (scheduleB { lbOptions with optionYears := some (-3) }).length = 1 := by
  obtain ⟨h1, h2⟩ :=
    C9_negative_optionYears { lbOptions with optionYears := some (-3) } (-3)
      (by norm_num) rfl
  exact ⟨h1, by rw [h2]; rfl⟩

/-- Claim C10: when the lease's rent is a non-negative whole number of
cents (the `moneyToCents` invariant) and both the annual and the option
rule have non-negative values (flat values being whole cents), the rents
of the part_005 schedule are monotonically non-decreasing from the first
row to the last, in both flat and percent mode. -/
theorem C10_monotone (l : LeaseB) (hrent : IntCentsNN l.monthlyRentCents)
    (hann : RuleNN l.annualMode l.annualValue)
    (hopt : RuleNN (l.optionIncreaseMode.getD .percent) (l.optionIncreaseValue.getD 0)) :
    List.Pairwise (· ≤ ·) ((scheduleB l).map (fun r => r.monthly)) := by
  have hch := scheduleB_chain l hrent hann hopt
  have hmap : List.Chain' (· ≤ ·) ((scheduleB l).map (fun r => r.monthly)) := by
    rw [List.chain'_map]
    exact hch
  exact List.chain'_iff_pairwise.mp hmap

/-- Claim C10, witness: the rents of `lbOptions` are non-decreasing. -/
theorem C10_witness :
    List.Pairwise (· ≤ ·) ((scheduleB lbOptions).map (fun r => r.monthly)) :=
  C10_monotone lbOptions ⟨100000, by norm_num, by norm_num [lbOptions]⟩
    ⟨by norm_num [lbOptions], fun hf => IncMode.noConfusion hf⟩
    ⟨le_refl 0, fun hf => IncMode.noConfusion hf⟩

end QProperty
